import Mathlib

/-!
Verification of the chisei feedforward neural-network library
(`src/chisei/neural_network.cpp`, `include/chisei/activation_functions.hpp`).

`double` values are modelled as exact rationals (`ℚ`); `size_t` arithmetic is
modelled as `Nat` with an explicit `% 2^64` where the code can wrap.  Vector
indexing `v[i]` is modelled with `List.getD`; every theorem below restricts
itself (through its hypotheses or its concrete inputs) to executions in which
all of the C++ accesses it depends on are in bounds, so that the total `getD`
embedding agrees with the source.
-/

namespace Chisei

/-- Scalars: IEEE `double` values, modelled as exact rationals. -/
abbrev Scalar := ℚ

/-- The network state of `chisei::NeuralNetwork`: layer widths, one weight
matrix and one bias vector per inter-layer gap, and the two activation
function values held by the object (`activation`, `activation_derivative`). -/
structure NeuralNetwork where
  layer_sizes : List Nat
  weights : List (List (List Scalar))
  biases : List (List Scalar)
  activation : Scalar → Scalar
  activation_derivative : Scalar → Scalar

/-- One layer of the forward pass, from `NeuralNetwork::predict` / the forward
section of `NeuralNetwork::train`: for `j < layer_sizes[layer+1]`,
`next[j] = activation(biases[layer][j] + Σ_{i<layer_sizes[layer]} input[i]*weights[layer][i][j])`. -/
def forwardLayer (act : Scalar → Scalar) (szCur szNext : Nat)
    (w : List (List Scalar)) (b : List Scalar) (input : List Scalar) : List Scalar :=
  (List.range szNext).map (fun j =>
    act ((b.getD j 0) +
      ((List.range szCur).map (fun i => input.getD i 0 * ((w.getD i []).getD j 0))).sum))

/-- `NeuralNetwork::predict` (neural_network.cpp:109-128): fold the forward
layer over `layer = 0 … weights.size()-1`. -/
def predictOut (net : NeuralNetwork) (input : List Scalar) : List Scalar :=
  (List.range net.weights.length).foldl
    (fun cur layer => forwardLayer net.activation (net.layer_sizes.getD layer 0)
      (net.layer_sizes.getD (layer + 1) 0) (net.weights.getD layer [])
      (net.biases.getD layer []) cur) input

/-- `predict` as a state transformer: the method writes no member of the
object, so the post-state is the pre-state. -/
def predictState (net : NeuralNetwork) (input : List Scalar) :
    NeuralNetwork × List Scalar :=
  (net, predictOut net input)

/-- Shape invariants of a network as built by the constructor (§3 of the
design: `n ≥ 2`, `weights` and `biases` have one entry per gap, `W_k` is
`l_k × l_{k+1}`, `|B_k| = l_{k+1}`). -/
def WellFormed (net : NeuralNetwork) : Prop :=
  2 ≤ net.layer_sizes.length ∧
  net.weights.length = net.layer_sizes.length - 1 ∧
  net.biases.length = net.layer_sizes.length - 1 ∧
  (∀ k, k < net.weights.length →
    (net.weights.getD k []).length = net.layer_sizes.getD k 0 ∧
    ∀ i, i < (net.weights.getD k []).length →
      ((net.weights.getD k []).getD i []).length = net.layer_sizes.getD (k + 1) 0) ∧
  (∀ k, k < net.biases.length →
    (net.biases.getD k []).length = net.layer_sizes.getD (k + 1) 0)

instance (net : NeuralNetwork) : Decidable (WellFormed net) := by
  unfold WellFormed
  infer_instance

lemma forwardLayer_length (act : Scalar → Scalar) (szCur szNext : Nat)
    (w : List (List Scalar)) (b : List Scalar) (input : List Scalar) :
    (forwardLayer act szCur szNext w b input).length = szNext := by
  simp [forwardLayer]

lemma predictOut_length (net : NeuralNetwork) (x : List Scalar)
    (hw : 1 ≤ net.weights.length) :
    (predictOut net x).length = net.layer_sizes.getD net.weights.length 0 := by
  obtain ⟨m, hm⟩ : ∃ m, net.weights.length = m + 1 :=
    ⟨net.weights.length - 1, by omega⟩
  unfold predictOut
  rw [hm, List.range_succ, List.foldl_append]
  simp [forwardLayer_length]

/-- C7: for a well-formed network and a well-shaped input, `predict` returns a
vector of length `l_{n-1}` and leaves the network state unchanged. -/
theorem predict_shape_and_frame (net : NeuralNetwork) (x : List Scalar)
    (hWF : WellFormed net) (_hx : x.length = net.layer_sizes.getD 0 0) :
    (predictOut net x).length =
      net.layer_sizes.getD (net.layer_sizes.length - 1) 0 ∧
    predictState net x = (net, predictOut net x) := by
  obtain ⟨hn, hwl, hbl, hws, hbs⟩ := hWF
  constructor
  · rw [predictOut_length net x (by omega), hwl]
  · rfl

/-- Witness for C7 at the concrete network `⟨[1,1],[[[1]]],[[0]],id,1⟩` and
input `[1/2]`. -/
theorem predict_shape_and_frame_witness :
    (predictOut ⟨[1, 1], [[[1]]], [[0]], fun x => x, fun _ => 1⟩ [(1 : ℚ)/2]).length =
      ([1, 1] : List Nat).getD (([1, 1] : List Nat).length - 1) 0 ∧
    predictState ⟨[1, 1], [[[1]]], [[0]], fun x => x, fun _ => 1⟩ [(1 : ℚ)/2] =
      (⟨[1, 1], [[[1]]], [[0]], fun x => x, fun _ => 1⟩,
       predictOut ⟨[1, 1], [[[1]]], [[0]], fun x => x, fun _ => 1⟩ [(1 : ℚ)/2]) :=
  predict_shape_and_frame _ _ (by decide) (by decide)

/-- `List.mapIdx` with an explicit starting index, by structural recursion;
used to model the in-place indexed update loops of `NeuralNetwork::train`. -/
def mapIdxFrom (f : Nat → α → β) : List α → Nat → List β
  | [], _ => []
  | a :: l, i => f i a :: mapIdxFrom f l (i + 1)

lemma mapIdxFrom_length (f : Nat → α → β) (l : List α) (i : Nat) :
    (mapIdxFrom f l i).length = l.length := by
  induction l generalizing i with
  | nil => rfl
  | cons a l ih => simp [mapIdxFrom, ih]

lemma mapIdxFrom_get? (f : Nat → α → β) (l : List α) (i k : Nat) :
    (mapIdxFrom f l i).get? k = (l.get? k).map (f (i + k)) := by
  induction l generalizing i k with
  | nil => simp [mapIdxFrom]
  | cons a l ih =>
    cases k with
    | zero => simp [mapIdxFrom]
    | succ k =>
      have h : i + (k + 1) = (i + 1) + k := by omega
      simp only [mapIdxFrom, List.get?_cons_succ, ih, h]

/-- The per-sample forward pass of `NeuralNetwork::train`
(neural_network.cpp:138-155): the list `layer_outputs` after `k` iterations of
the layer loop, starting from `[input]` and appending each freshly computed
layer output (`current_input` is the last element so far). -/
def outputsUpTo (net : NeuralNetwork) (x : List Scalar) : Nat → List (List Scalar)
  | 0 => [x]
  | k + 1 =>
    outputsUpTo net x k ++ [forwardLayer net.activation (net.layer_sizes.getD k 0)
      (net.layer_sizes.getD (k + 1) 0) (net.weights.getD k [])
      (net.biases.getD k []) ((outputsUpTo net x k).getLastD [])]

/-- `layer_outputs` at the end of the forward section of the training loop. -/
def layerOutputs (net : NeuralNetwork) (x : List Scalar) : List (List Scalar) :=
  outputsUpTo net x net.weights.length

/-- The output error signal (neural_network.cpp:158-164): for
`j < layer_sizes.back()`, `(output - target[j]) * activation_derivative(output)`
where `output = layer_outputs.back()[j]`. -/
def outputGradient (net : NeuralNetwork) (outs : List (List Scalar))
    (t : List Scalar) : List Scalar :=
  (List.range (net.layer_sizes.getLastD 0)).map (fun j =>
    ((outs.getLastD []).getD j 0 - t.getD j 0) *
      net.activation_derivative ((outs.getLastD []).getD j 0))

/-- One step of the backward loop (neural_network.cpp:167-185): the gradient
stored at index `layer`, computed from the gradient at `layer + 1`:
`layer_gradient[j] = (Σ_{k<layer_sizes[layer+2]} nextGrad[k]*weights[layer+1][j][k]) * activation_derivative(layer_outputs[layer+1][j])`. -/
def hiddenGradient (net : NeuralNetwork) (outs : List (List Scalar))
    (nextGrad : List Scalar) (layer : Nat) : List Scalar :=
  (List.range (net.layer_sizes.getD (layer + 1) 0)).map (fun j =>
    ((List.range (net.layer_sizes.getD (layer + 2) 0)).map (fun k =>
      nextGrad.getD k 0 * (((net.weights.getD (layer + 1) []).getD j []).getD k 0))).sum
    * net.activation_derivative ((outs.getD (layer + 1) []).getD j 0))

/-- The suffix `[gradients[w-1-m], …, gradients[w-1]]` of the `gradients`
array of the training loop, where `w = weights.size()`: the last entry is the
output gradient and the downward loop prepends each hidden gradient. -/
def gradientsFrom (net : NeuralNetwork) (outs : List (List Scalar))
    (top : List Scalar) : Nat → List (List Scalar)
  | 0 => [top]
  | m + 1 =>
    hiddenGradient net outs ((gradientsFrom net outs top m).headD [])
      (net.weights.length - 1 - (m + 1)) :: gradientsFrom net outs top m

/-- The complete `gradients` array of one training sample
(entries `0 … weights.size()-1`; for the empty-weights case, where the C++
`gradients.back()` is out of bounds, this is the one-element list). -/
def sampleGradients (net : NeuralNetwork) (outs : List (List Scalar))
    (t : List Scalar) : List (List Scalar) :=
  gradientsFrom net outs (outputGradient net outs t) (net.weights.length - 1)

/-- The in-place weight update (neural_network.cpp:187-191):
`weights[layer][i][j] -= learning_rate * gradients[layer][j] * layer_outputs[layer][i]`
for `i < layer_sizes[layer]`, `j < layer_sizes[layer+1]`; entries outside those
loop bounds are untouched. -/
def updatedWeights (net : NeuralNetwork) (outs grads : List (List Scalar))
    (lr : Scalar) : List (List (List Scalar)) :=
  mapIdxFrom (fun layer wmat =>
    mapIdxFrom (fun i rowW =>
      mapIdxFrom (fun j wij =>
        if i < net.layer_sizes.getD layer 0 ∧ j < net.layer_sizes.getD (layer + 1) 0 then
          wij - lr * (grads.getD layer []).getD j 0 * ((outs.getD layer []).getD i 0)
        else wij) rowW 0) wmat 0) net.weights 0

/-- The in-place bias update (neural_network.cpp:193-194), performed for
`layer < weights.size()` and `j < layer_sizes[layer+1]`. -/
def updatedBiases (net : NeuralNetwork) (grads : List (List Scalar))
    (lr : Scalar) : List (List Scalar) :=
  mapIdxFrom (fun layer bvec =>
    if layer < net.weights.length then
      mapIdxFrom (fun j bj =>
        if j < net.layer_sizes.getD (layer + 1) 0 then
          bj - lr * (grads.getD layer []).getD j 0
        else bj) bvec 0
    else bvec) net.biases 0

/-- One sample of `NeuralNetwork::train` (neural_network.cpp:137-195):
forward pass, gradient computation, then the in-place parameter update. -/
def trainSample (net : NeuralNetwork) (x t : List Scalar) (lr : Scalar) :
    NeuralNetwork :=
  { net with
    weights := updatedWeights net (layerOutputs net x)
      (sampleGradients net (layerOutputs net x) t) lr
    biases := updatedBiases net (sampleGradients net (layerOutputs net x) t) lr }

/-- One epoch of `NeuralNetwork::train`: iterate over every sample in input
order (`sample = 0 … inputs.size()-1`). -/
def trainEpoch (net : NeuralNetwork) (inputs targets : List (List Scalar))
    (lr : Scalar) : NeuralNetwork :=
  (List.range inputs.length).foldl
    (fun n s => trainSample n (inputs.getD s []) (targets.getD s []) lr) net

/-- `NeuralNetwork::train` (neural_network.cpp:130-198): the epoch loop
`for(int epoch = 0; epoch < epochs; ++epoch)` runs `max(epochs, 0)`
iterations of the epoch body. -/
def train (net : NeuralNetwork) (inputs targets : List (List Scalar))
    (lr : Scalar) (epochs : Int) : NeuralNetwork :=
  (fun n => trainEpoch n inputs targets lr)^[epochs.toNat] net

/-- C10: an epoch count `E ≤ 0` (the loop guard `epoch < epochs` fails at
once) performs zero iterations and leaves every weight and bias unchanged. -/
theorem train_nonpos_epochs_id (net : NeuralNetwork)
    (inputs targets : List (List Scalar)) (lr : Scalar) (E : Int)
    (hE : E ≤ 0) : train net inputs targets lr E = net := by
  unfold train
  rw [Int.toNat_of_nonpos hE]
  rfl

/-- Witness for C10 at a concrete network and `E = -3`. -/
theorem train_nonpos_epochs_id_witness :
    train ⟨[1, 1], [[[1]]], [[0]], fun x => x, fun _ => 1⟩ [[1]] [[0]] 1 (-3) =
      ⟨[1, 1], [[[1]]], [[0]], fun x => x, fun _ => 1⟩ :=
  train_nonpos_epochs_id _ _ _ _ _ (by decide)

/-- C8: training for `E1` epochs and then for `E2` epochs on the same data is
exactly training for `E1 + E2` epochs — no state other than the parameters
persists between epochs. -/
theorem train_epochs_additive (net : NeuralNetwork)
    (inputs targets : List (List Scalar)) (lr : Scalar) (E1 E2 : Int)
    (h1 : 0 ≤ E1) (h2 : 0 ≤ E2) :
    train (train net inputs targets lr E1) inputs targets lr E2 =
      train net inputs targets lr (E1 + E2) := by
  unfold train
  rw [Int.toNat_add h1 h2, Nat.add_comm, Function.iterate_add_apply]

/-- Witness for C8 at a concrete network with `E1 = 1`, `E2 = 2`. -/
theorem train_epochs_additive_witness :
    train (train ⟨[1, 1], [[[1]]], [[0]], fun x => x, fun _ => 1⟩ [[1]] [[0]] 1 1)
        [[1]] [[0]] 1 2 =
      train ⟨[1, 1], [[[1]]], [[0]], fun x => x, fun _ => 1⟩ [[1]] [[0]] 1 (1 + 2) :=
  train_epochs_additive _ _ _ _ _ _ (by decide) (by decide)

/-- A tiny concrete well-formed network (shape `{1,1}`, weight 1, bias 0,
identity activation, constant-1 derivative) used as the concrete input of
several witnesses. -/
def tinyNet : NeuralNetwork :=
  ⟨[1, 1], [[[1]]], [[0]], fun x => x, fun _ => 1⟩

lemma getD_take (l : List Scalar) (n i : Nat) (d : Scalar) (h : i < n) :
    (l.take n).getD i d = l.getD i d := by
  simp [List.getD_eq_getElem?_getD, List.getElem?_take_of_lt h]

lemma getLastD_irrel (l : List α) (d e : α) (h : l ≠ []) :
    l.getLastD d = l.getLastD e := by
  cases l with
  | nil => exact absurd rfl h
  | cons b t => simp [List.getLastD]

lemma tail_getD (l : List α) (j : Nat) (d : α) :
    l.tail.getD j d = l.getD (j + 1) d := by
  cases l <;> rfl

lemma map_take_getD (l : List (List Scalar)) (n s : Nat) :
    (l.map (fun v => v.take n)).getD s [] = (l.getD s []).take n := by
  induction l generalizing s with
  | nil => simp
  | cons a t ih =>
    cases s with
    | zero => rfl
    | succ s => simpa using ih s

lemma mapIdxFrom_congr (f g : Nat → α → β) (l : List α) (n : Nat)
    (h : ∀ i a, f i a = g i a) : mapIdxFrom f l n = mapIdxFrom g l n := by
  induction l generalizing n with
  | nil => rfl
  | cons a l ih => simp [mapIdxFrom, h, ih]

lemma forwardLayer_take (act : Scalar → Scalar) (szCur szNext : Nat)
    (w : List (List Scalar)) (b : List Scalar) (x : List Scalar) (n : Nat)
    (h : szCur ≤ n) :
    forwardLayer act szCur szNext w b (x.take n) =
      forwardLayer act szCur szNext w b x := by
  unfold forwardLayer
  apply List.map_congr_left
  intro j _
  have hsum : (List.range szCur).map
        (fun i => (x.take n).getD i 0 * ((w.getD i []).getD j 0)) =
      (List.range szCur).map (fun i => x.getD i 0 * ((w.getD i []).getD j 0)) := by
    apply List.map_congr_left
    intro i hi
    rw [getD_take]
    exact lt_of_lt_of_le (List.mem_range.mp hi) h
  rw [hsum]

lemma outputsUpTo_length (net : NeuralNetwork) (x : List Scalar) (k : Nat) :
    (outputsUpTo net x k).length = k + 1 := by
  induction k with
  | zero => rfl
  | succ m ih => simp [outputsUpTo, ih]

lemma outputsUpTo_getD_zero (net : NeuralNetwork) (x : List Scalar) (k : Nat) :
    (outputsUpTo net x k).getD 0 [] = x := by
  induction k with
  | zero => rfl
  | succ m ih =>
    have hne : outputsUpTo net x m ≠ [] := by
      intro hc
      have := outputsUpTo_length net x m
      rw [hc] at this
      simp at this
    simp only [outputsUpTo]
    cases hmm : outputsUpTo net x m with
    | nil => exact absurd hmm hne
    | cons a t =>
      have := ih
      rw [hmm] at this
      simpa using this

lemma getLastD_cons_eq (a : α) (l : List α) (d : α) :
    (a :: l).getLastD d = l.getLastD a := by
  cases l with
  | nil => rfl
  | cons b t => simp [List.getLastD]

lemma outputsUpTo_succ (net : NeuralNetwork) (x : List Scalar) (m : Nat) :
    outputsUpTo net x (m + 1) = outputsUpTo net x m ++
      [forwardLayer net.activation (net.layer_sizes.getD m 0)
        (net.layer_sizes.getD (m + 1) 0) (net.weights.getD m [])
        (net.biases.getD m []) ((outputsUpTo net x m).getLastD [])] := rfl

lemma outputsUpTo_cons (net : NeuralNetwork) (x : List Scalar) (m : Nat) :
    ∃ T, outputsUpTo net x m = x :: T := by
  cases hc : outputsUpTo net x m with
  | nil =>
    have := outputsUpTo_length net x m
    rw [hc] at this
    simp at this
  | cons a t =>
    have ha := outputsUpTo_getD_zero net x m
    rw [hc] at ha
    simp only [List.getD_cons_zero] at ha
    exact ⟨t, by rw [ha]⟩

lemma outputsUpTo_take (net : NeuralNetwork) (x : List Scalar) (k : Nat) :
    outputsUpTo net (x.take (net.layer_sizes.getD 0 0)) k =
      x.take (net.layer_sizes.getD 0 0) :: (outputsUpTo net x k).tail := by
  induction k with
  | zero => rfl
  | succ m ih =>
    obtain ⟨T, hT⟩ := outputsUpTo_cons net x m
    rw [outputsUpTo_succ, outputsUpTo_succ, ih, hT]
    simp only [List.tail_cons, List.cons_append]
    cases T with
    | nil =>
      have hm : m = 0 := by
        have := outputsUpTo_length net x m
        rw [hT] at this
        simpa using this
      subst hm
      rw [getLastD_cons_eq, getLastD_cons_eq]
      show _ :: ([forwardLayer net.activation (net.layer_sizes.getD 0 0)
          (net.layer_sizes.getD 1 0) (net.weights.getD 0 []) (net.biases.getD 0 [])
          (x.take (net.layer_sizes.getD 0 0))]) = _
      rw [forwardLayer_take _ _ _ _ _ _ _ (le_refl _)]
      rfl
    | cons b u =>
      have harg : ((x.take (net.layer_sizes.getD 0 0)) :: b :: u).getLastD [] =
          (x :: b :: u).getLastD [] := by
        calc ((x.take (net.layer_sizes.getD 0 0)) :: b :: u).getLastD []
            = (b :: u).getLastD (x.take (net.layer_sizes.getD 0 0)) :=
              getLastD_cons_eq _ _ _
          _ = (b :: u).getLastD x := getLastD_irrel (b :: u) _ _ (by simp)
          _ = (x :: b :: u).getLastD [] := (getLastD_cons_eq _ _ _).symm
      rw [harg]

lemma getLastD_cons_tail (y d : α) (l : List α) (h : 2 ≤ l.length) :
    (y :: l.tail).getLastD d = l.getLastD d := by
  cases l with
  | nil => simp at h
  | cons a t =>
    cases t with
    | nil => simp at h
    | cons b u =>
      calc (y :: (a :: b :: u).tail).getLastD d
          = (b :: u).getLastD y := getLastD_cons_eq _ _ _
        _ = (b :: u).getLastD a := getLastD_irrel (b :: u) _ _ (by simp)
        _ = (a :: b :: u).getLastD d := (getLastD_cons_eq _ _ _).symm

lemma layerOutputs_getD_zero (net : NeuralNetwork) (x : List Scalar) :
    (layerOutputs net x).getD 0 [] = x :=
  outputsUpTo_getD_zero net x _

lemma layerOutputs_take (net : NeuralNetwork) (x : List Scalar) :
    layerOutputs net (x.take (net.layer_sizes.getD 0 0)) =
      x.take (net.layer_sizes.getD 0 0) :: (layerOutputs net x).tail :=
  outputsUpTo_take net x net.weights.length

lemma outputGradient_cons_tail (net : NeuralNetwork) (outs : List (List Scalar))
    (y t : List Scalar) (h : 2 ≤ outs.length) :
    outputGradient net (y :: outs.tail) t = outputGradient net outs t := by
  unfold outputGradient
  rw [getLastD_cons_tail _ _ _ h]

lemma hiddenGradient_cons_tail (net : NeuralNetwork) (outs : List (List Scalar))
    (y g : List Scalar) (layer : Nat) :
    hiddenGradient net (y :: outs.tail) g layer = hiddenGradient net outs g layer := by
  unfold hiddenGradient
  rw [List.getD_cons_succ, tail_getD]

lemma gradientsFrom_cons_tail (net : NeuralNetwork) (outs : List (List Scalar))
    (y top : List Scalar) (m : Nat) :
    gradientsFrom net (y :: outs.tail) top m = gradientsFrom net outs top m := by
  induction m with
  | zero => rfl
  | succ k ih => simp only [gradientsFrom, ih, hiddenGradient_cons_tail]

lemma updatedWeights_take_input (net : NeuralNetwork) (x : List Scalar)
    (outs grads : List (List Scalar)) (lr : Scalar)
    (h0 : outs.getD 0 [] = x) :
    updatedWeights net ((x.take (net.layer_sizes.getD 0 0)) :: outs.tail) grads lr =
      updatedWeights net outs grads lr := by
  unfold updatedWeights
  apply mapIdxFrom_congr
  intro layer wmat
  apply mapIdxFrom_congr
  intro i rowW
  apply mapIdxFrom_congr
  intro j wij
  by_cases hij : i < net.layer_sizes.getD layer 0 ∧ j < net.layer_sizes.getD (layer + 1) 0
  · simp only [if_pos hij]
    have hO : ((x.take (net.layer_sizes.getD 0 0) :: outs.tail).getD layer []).getD i 0 =
        (outs.getD layer []).getD i 0 := by
      cases layer with
      | zero =>
        simp only [List.getD_cons_zero, h0]
        exact getD_take x _ i 0 hij.1
      | succ s => rw [List.getD_cons_succ, tail_getD]
    rw [hO]
  · simp only [if_neg hij]

/-- Training on an input truncated to the input width `l₀` gives exactly the
same result as training on the full input: the loops of `train` never read an
input entry at an index `≥ l₀`. -/
lemma trainSample_take_x (net : NeuralNetwork) (x t : List Scalar) (lr : Scalar)
    (hw : 1 ≤ net.weights.length) :
    trainSample net (x.take (net.layer_sizes.getD 0 0)) t lr =
      trainSample net x t lr := by
  have h2 : 2 ≤ (layerOutputs net x).length := by
    unfold layerOutputs
    rw [outputsUpTo_length]
    omega
  unfold trainSample sampleGradients
  rw [layerOutputs_take, outputGradient_cons_tail _ _ _ _ h2,
    gradientsFrom_cons_tail,
    updatedWeights_take_input _ _ _ _ _ (layerOutputs_getD_zero net x)]

/-- Training on a target truncated to the output width `l_{n-1}`
(`layer_sizes.back()`) gives exactly the same result as training on the full
target: the target is only read at indices `j < layer_sizes.back()`. -/
lemma trainSample_take_t (net : NeuralNetwork) (x t : List Scalar) (lr : Scalar) :
    trainSample net x (t.take (net.layer_sizes.getLastD 0)) lr =
      trainSample net x t lr := by
  unfold trainSample sampleGradients
  have hOG : outputGradient net (layerOutputs net x) (t.take (net.layer_sizes.getLastD 0)) =
      outputGradient net (layerOutputs net x) t := by
    unfold outputGradient
    apply List.map_congr_left
    intro j hj
    rw [getD_take _ _ _ _ (List.mem_range.mp hj)]
  rw [hOG]

lemma trainSample_layer_sizes (net : NeuralNetwork) (x t : List Scalar)
    (lr : Scalar) : (trainSample net x t lr).layer_sizes = net.layer_sizes := rfl

lemma trainSample_weights_length (net : NeuralNetwork) (x t : List Scalar)
    (lr : Scalar) :
    (trainSample net x t lr).weights.length = net.weights.length := by
  simp [trainSample, updatedWeights, mapIdxFrom_length]

lemma foldl_congr_inv (P : NeuralNetwork → Prop)
    (G G' : NeuralNetwork → Nat → NeuralNetwork)
    (hpres : ∀ n s, P n → P (G' n s))
    (hstep : ∀ n s, P n → G n s = G' n s) :
    ∀ (idxs : List Nat) (cur : NeuralNetwork), P cur →
      idxs.foldl G cur = idxs.foldl G' cur := by
  intro idxs
  induction idxs with
  | nil =>
    intro cur _
    rfl
  | cons s rest ih =>
    intro cur hP
    rw [List.foldl_cons, List.foldl_cons, hstep cur s hP]
    exact ih _ (hpres cur s hP)

lemma foldl_preserves (P : NeuralNetwork → Prop)
    (G : NeuralNetwork → Nat → NeuralNetwork)
    (hpres : ∀ n s, P n → P (G n s)) :
    ∀ (idxs : List Nat) (cur : NeuralNetwork), P cur → P (idxs.foldl G cur) := by
  intro idxs
  induction idxs with
  | nil =>
    intro cur h
    exact h
  | cons s rest ih =>
    intro cur h
    rw [List.foldl_cons]
    exact ih _ (hpres cur s h)

lemma iterate_congr_inv (P : NeuralNetwork → Prop)
    (F F' : NeuralNetwork → NeuralNetwork)
    (hpres : ∀ n, P n → P (F' n))
    (hstep : ∀ n, P n → F n = F' n) :
    ∀ (k : Nat) (cur : NeuralNetwork), P cur → F^[k] cur = F'^[k] cur := by
  intro k
  induction k with
  | zero =>
    intro cur _
    rfl
  | succ m ih =>
    intro cur hP
    rw [Function.iterate_succ_apply, Function.iterate_succ_apply, hstep cur hP]
    exact ih _ (hpres cur hP)

lemma trainSample_take_sample (lr : Scalar) (inputs targets : List (List Scalar))
    (cur : NeuralNetwork) (s : Nat) (hw : 1 ≤ cur.weights.length) :
    trainSample cur ((inputs.map (fun v => v.take (cur.layer_sizes.getD 0 0))).getD s [])
      ((targets.map (fun v => v.take (cur.layer_sizes.getLastD 0))).getD s []) lr =
      trainSample cur (inputs.getD s []) (targets.getD s []) lr := by
  rw [map_take_getD, map_take_getD, trainSample_take_x _ _ _ _ hw, trainSample_take_t]

lemma foldl_samples_take (lr : Scalar) (inputs targets : List (List Scalar))
    (l0 lL : Nat) (idxs : List Nat) (cur : NeuralNetwork)
    (hw : 1 ≤ cur.weights.length)
    (h0 : cur.layer_sizes.getD 0 0 = l0) (hL : cur.layer_sizes.getLastD 0 = lL) :
    idxs.foldl (fun n s => trainSample n
        ((inputs.map (fun v => v.take l0)).getD s [])
        ((targets.map (fun v => v.take lL)).getD s []) lr) cur =
      idxs.foldl (fun n s =>
        trainSample n (inputs.getD s []) (targets.getD s []) lr) cur := by
  apply foldl_congr_inv (fun n => 1 ≤ n.weights.length ∧
    n.layer_sizes.getD 0 0 = l0 ∧ n.layer_sizes.getLastD 0 = lL)
  · intro n s hP
    refine ⟨?_, ?_, ?_⟩
    · rw [trainSample_weights_length]
      exact hP.1
    · rw [trainSample_layer_sizes]
      exact hP.2.1
    · rw [trainSample_layer_sizes]
      exact hP.2.2
  · intro n s hP
    rw [← hP.2.1, ← hP.2.2]
    exact trainSample_take_sample lr inputs targets n s hP.1
  · exact ⟨hw, h0, hL⟩

lemma trainEpoch_take (cur : NeuralNetwork) (inputs targets : List (List Scalar))
    (lr : Scalar) (l0 lL : Nat) (hw : 1 ≤ cur.weights.length)
    (h0 : cur.layer_sizes.getD 0 0 = l0) (hL : cur.layer_sizes.getLastD 0 = lL) :
    trainEpoch cur (inputs.map (fun v => v.take l0))
      (targets.map (fun v => v.take lL)) lr = trainEpoch cur inputs targets lr := by
  unfold trainEpoch
  rw [List.length_map]
  exact foldl_samples_take lr inputs targets l0 lL _ cur hw h0 hL

lemma trainEpoch_layer_sizes (net : NeuralNetwork)
    (inputs targets : List (List Scalar)) (lr : Scalar) :
    (trainEpoch net inputs targets lr).layer_sizes = net.layer_sizes := by
  unfold trainEpoch
  exact foldl_preserves (fun n => n.layer_sizes = net.layer_sizes) _
    (fun n s h => by
      show (trainSample n _ _ _).layer_sizes = net.layer_sizes
      rw [trainSample_layer_sizes]
      exact h) _ net rfl

lemma trainEpoch_weights_length (net : NeuralNetwork)
    (inputs targets : List (List Scalar)) (lr : Scalar) :
    (trainEpoch net inputs targets lr).weights.length = net.weights.length := by
  unfold trainEpoch
  exact foldl_preserves (fun n => n.weights.length = net.weights.length) _
    (fun n s h => by
      show (trainSample n _ _ _).weights.length = net.weights.length
      rw [trainSample_weights_length]
      exact h) _ net rfl

/-- C1 (amended): `train` performs no shape validation and raises no
input-shape error; it reads at most the first `l₀` entries of each input
vector and the first `l_{n-1}` (`layer_sizes.back()`) entries of each target
vector, so truncating every training vector to those widths leaves the result
of `train` unchanged — over-long vectors are silently accepted, their extra
entries ignored, and the parameters are still mutated (see the
counterexample). -/
theorem train_no_shape_validation (net : NeuralNetwork)
    (inputs targets : List (List Scalar)) (lr : Scalar) (E : Int)
    (hw : 1 ≤ net.weights.length) :
    train net (inputs.map (fun v => v.take (net.layer_sizes.getD 0 0)))
      (targets.map (fun v => v.take (net.layer_sizes.getLastD 0))) lr E =
      train net inputs targets lr E := by
  unfold train
  apply iterate_congr_inv (fun n => 1 ≤ n.weights.length ∧
    n.layer_sizes.getD 0 0 = net.layer_sizes.getD 0 0 ∧
    n.layer_sizes.getLastD 0 = net.layer_sizes.getLastD 0)
  · intro n hP
    refine ⟨?_, ?_, ?_⟩
    · rw [trainEpoch_weights_length]
      exact hP.1
    · rw [trainEpoch_layer_sizes]
      exact hP.2.1
    · rw [trainEpoch_layer_sizes]
      exact hP.2.2
  · intro n hP
    exact trainEpoch_take n inputs targets lr _ _ hP.1 hP.2.1 hP.2.2
  · exact ⟨hw, rfl, rfl⟩

/-- Witness for the amended C1 at a concrete call whose input vector has
length 2 while `l₀ = 1`. -/
theorem train_no_shape_validation_witness :
    train tinyNet ([[1, 5]].map (fun v => v.take (tinyNet.layer_sizes.getD 0 0)))
      ([[0]].map (fun v => v.take (tinyNet.layer_sizes.getLastD 0))) 1 1 =
      train tinyNet [[1, 5]] [[0]] 1 1 :=
  train_no_shape_validation tinyNet [[1, 5]] [[0]] 1 1 (by decide)

/-- C1 counterexample: calling `train` with the single input `[1, 5]` — whose
length 2 differs from the input width `l₀ = 1` — raises nothing and does NOT
leave the parameters unchanged: the training step runs and mutates the weight
(from 1 to 0), contradicting the claim that an input-shape error is raised
before any weight or bias is mutated. -/
theorem train_wrong_shape_mutates :
    ([1, 5] : List Scalar).length ≠ tinyNet.layer_sizes.getD 0 0 ∧
    (train tinyNet [[1, 5]] [[0]] 1 1).weights ≠ tinyNet.weights := by
  constructor
  · decide
  · have hv : (train tinyNet [[1, 5]] [[0]] 1 1).weights = [[[0]]] := by
      norm_num [train, trainEpoch, trainSample, updatedWeights, updatedBiases,
        sampleGradients, gradientsFrom, outputGradient, hiddenGradient,
        layerOutputs, outputsUpTo, forwardLayer, mapIdxFrom, tinyNet,
        List.range_succ]
    rw [hv]
    simp [tinyNet]

lemma range_map_sum (n : Nat) (f : Nat → Scalar) :
    ((List.range n).map f).sum = ∑ i in Finset.range n, f i := by
  induction n with
  | zero => simp
  | succ m ih =>
    rw [List.range_succ, List.map_append, List.sum_append, Finset.sum_range_succ, ih]
    simp

lemma getLastD_eq_getD (l : List α) (d : α) (h : l ≠ []) :
    l.getLastD d = l.getD (l.length - 1) d := by
  induction l generalizing d with
  | nil => exact absurd rfl h
  | cons a t ih =>
    cases t with
    | nil => rfl
    | cons b u =>
      rw [getLastD_cons_eq, ih a (by simp)]
      have h1 : (a :: b :: u).length - 1 = ((b :: u).length - 1) + 1 := by simp
      rw [h1, List.getD_cons_succ]
      rw [List.getD_eq_getElem?_getD, List.getD_eq_getElem?_getD,
        List.getElem?_eq_getElem (by simp)]
      rfl

lemma getD_range_map (f : Nat → α) (n k : Nat) (d : α) (h : k < n) :
    ((List.range n).map f).getD k d = f k := by
  rw [List.getD_eq_getElem?_getD, List.getElem?_map, List.getElem?_range h]
  rfl

lemma mapIdxFrom_eq_range_map (f : Nat → α → β) (l : List α) (d : α) :
    mapIdxFrom f l 0 = (List.range l.length).map (fun k => f k (l.getD k d)) := by
  apply List.ext_get?
  intro k
  rw [mapIdxFrom_get?, List.get?_map]
  by_cases hk : k < l.length
  · rw [List.get?_range hk]
    rw [List.get?_eq_getElem?, List.getElem?_eq_getElem hk]
    simp [List.getD_eq_getElem?_getD, List.getElem?_eq_getElem hk]
  · have hk' : l.length ≤ k := by omega
    rw [List.get?_eq_getElem?, List.getElem?_eq_none hk',
      (List.range l.length).get?_eq_getElem?]
    rw [List.getElem?_eq_none (by simpa using hk')]
    rfl

/-- Reference forward step, transcribed from the spec (§4.3, forward pass):
`A_{k+1}[j] = f(z_{k+1}[j])` with `z_{k+1}[j] = B_k[j] + Σ_{i<l_k} A_k[i]·W_k[i][j]`,
for `j < l_{k+1}`. -/
def specLayer (net : NeuralNetwork) (A : List Scalar) (k : Nat) : List Scalar :=
  (List.range (net.layer_sizes.getD (k + 1) 0)).map (fun j =>
    net.activation ((net.biases.getD k []).getD j 0 +
      ∑ i in Finset.range (net.layer_sizes.getD k 0),
        A.getD i 0 * ((net.weights.getD k []).getD i []).getD j 0))

/-- Reference layer outputs `A₀ … A_m` of the spec's forward pass, retained
for the backward pass (spec §4.3 step 1). -/
def specOutputs (net : NeuralNetwork) (x : List Scalar) : Nat → List (List Scalar)
  | 0 => [x]
  | k + 1 => specOutputs net x k ++ [specLayer net ((specOutputs net x k).getLastD []) k]

/-- Reference output error signal (spec §4.3 step 2):
`δ[j] = (A_{n−1}[j] − t[j]) · f′(A_{n−1}[j])` for `j < l_{n−1}`. -/
def specOutputDelta (net : NeuralNetwork) (As : List (List Scalar))
    (t : List Scalar) : List Scalar :=
  (List.range (net.layer_sizes.getD (net.layer_sizes.length - 1) 0)).map (fun j =>
    ((As.getD (net.layer_sizes.length - 1) []).getD j 0 - t.getD j 0) *
      net.activation_derivative ((As.getD (net.layer_sizes.length - 1) []).getD j 0))

/-- Reference backward step (spec §4.3 step 3):
`δ_k[j] = f′(A_{k+1}[j]) · Σ_{m<l_{k+2}} δ_{k+1}[m] · W_{k+1}[j][m]` for
`j < l_{k+1}`, where `next` is `δ_{k+1}`. -/
def specHidden (net : NeuralNetwork) (As : List (List Scalar))
    (next : List Scalar) (k : Nat) : List Scalar :=
  (List.range (net.layer_sizes.getD (k + 1) 0)).map (fun j =>
    net.activation_derivative ((As.getD (k + 1) []).getD j 0) *
      ∑ m in Finset.range (net.layer_sizes.getD (k + 2) 0),
        next.getD m 0 * (((net.weights.getD (k + 1) []).getD j []).getD m 0))

/-- Reference error signals of the spec, indexed by the distance `d` from the
output gap: `specDelta net As t d` is `δ_k` for `k = (n−2) − d`, obtained by
starting from the output error signal and applying the spec's backward step
for `k = n−3` down to `0`. -/
def specDelta (net : NeuralNetwork) (As : List (List Scalar)) (t : List Scalar) :
    Nat → List Scalar
  | 0 => specOutputDelta net As t
  | d + 1 => specHidden net As (specDelta net As t d)
      (net.layer_sizes.length - 2 - (d + 1))

/-- Reference parameter update (spec §4.3 step 4): for every gap
`k ∈ [0, n−2]`, `W_k[i][j] ← W_k[i][j] − η · δ_k[j] · A_k[i]` with `i < l_k`,
`j < l_{k+1}`. -/
def specUpdatedWeights (net : NeuralNetwork) (As : List (List Scalar))
    (t : List Scalar) (lr : Scalar) : List (List (List Scalar)) :=
  (List.range (net.layer_sizes.length - 1)).map (fun k =>
    (List.range (net.layer_sizes.getD k 0)).map (fun i =>
      (List.range (net.layer_sizes.getD (k + 1) 0)).map (fun j =>
        ((net.weights.getD k []).getD i []).getD j 0 -
          lr * (specDelta net As t (net.layer_sizes.length - 2 - k)).getD j 0 *
            (As.getD k []).getD i 0)))

/-- Reference bias update (spec §4.3 step 4): `B_k[j] ← B_k[j] − η · δ_k[j]`. -/
def specUpdatedBiases (net : NeuralNetwork) (As : List (List Scalar))
    (t : List Scalar) (lr : Scalar) : List (List Scalar) :=
  (List.range (net.layer_sizes.length - 1)).map (fun k =>
    (List.range (net.layer_sizes.getD (k + 1) 0)).map (fun j =>
      (net.biases.getD k []).getD j 0 -
        lr * (specDelta net As t (net.layer_sizes.length - 2 - k)).getD j 0))

/-- The complete reference per-sample training step, assembled from the spec's
equations: forward pass retaining `A₀ … A_{n−1}`, error signals, then the
parameter update, with the layer sizes and activation pair untouched. -/
def specTrainSample (net : NeuralNetwork) (x t : List Scalar) (lr : Scalar) :
    NeuralNetwork :=
  { net with
    weights := specUpdatedWeights net
      (specOutputs net x (net.layer_sizes.length - 1)) t lr
    biases := specUpdatedBiases net
      (specOutputs net x (net.layer_sizes.length - 1)) t lr }

lemma specLayer_eq (net : NeuralNetwork) (A : List Scalar) (k : Nat) :
    specLayer net A k = forwardLayer net.activation (net.layer_sizes.getD k 0)
      (net.layer_sizes.getD (k + 1) 0) (net.weights.getD k [])
      (net.biases.getD k []) A := by
  unfold specLayer forwardLayer
  apply List.map_congr_left
  intro j _
  rw [range_map_sum]

lemma specOutputs_eq (net : NeuralNetwork) (x : List Scalar) :
    ∀ k, specOutputs net x k = outputsUpTo net x k := by
  intro k
  induction k with
  | zero => rfl
  | succ m ih => simp only [specOutputs, outputsUpTo, ih, specLayer_eq]

lemma hiddenGradient_eq_specHidden (net : NeuralNetwork)
    (outs : List (List Scalar)) (g : List Scalar) (layer : Nat) :
    hiddenGradient net outs g layer = specHidden net outs g layer := by
  unfold hiddenGradient specHidden
  apply List.map_congr_left
  intro j _
  rw [range_map_sum, mul_comm]

lemma outputGradient_eq_specOutputDelta (net : NeuralNetwork)
    (outs : List (List Scalar)) (t : List Scalar)
    (hsz : net.layer_sizes ≠ []) (hlen : outs.length = net.layer_sizes.length) :
    outputGradient net outs t = specOutputDelta net outs t := by
  have houts : outs ≠ [] := by
    intro hc
    rw [hc] at hlen
    simp only [List.length_nil] at hlen
    exact hsz (List.length_eq_zero.mp hlen.symm)
  unfold outputGradient specOutputDelta
  rw [getLastD_eq_getD net.layer_sizes 0 hsz, getLastD_eq_getD outs [] houts, hlen]

lemma gradientsFrom_eq_specDelta (net : NeuralNetwork)
    (outs : List (List Scalar)) (t : List Scalar)
    (hw : net.weights.length = net.layer_sizes.length - 1)
    (hsz : 2 ≤ net.layer_sizes.length) (hlen : outs.length = net.layer_sizes.length) :
    ∀ m, gradientsFrom net outs (outputGradient net outs t) m =
      (List.range (m + 1)).map (fun r => specDelta net outs t (m - r)) := by
  have hne : net.layer_sizes ≠ [] := by
    intro hc
    rw [hc] at hsz
    simp at hsz
  intro m
  induction m with
  | zero =>
    simp only [gradientsFrom]
    rw [outputGradient_eq_specOutputDelta net outs t hne hlen]
    simp [specDelta]
  | succ d ih =>
    simp only [gradientsFrom]
    rw [ih]
    have hhead : ((List.range (d + 1)).map
        (fun r => specDelta net outs t (d - r))).headD [] =
        specDelta net outs t d := by
      rw [List.range_succ_eq_map]
      simp
    have hidx : net.weights.length - 1 - (d + 1) =
        net.layer_sizes.length - 2 - (d + 1) := by omega
    rw [hhead, hiddenGradient_eq_specHidden, hidx]
    have hrhs : (List.range (d + 1 + 1)).map
        (fun r => specDelta net outs t (d + 1 - r)) =
        specDelta net outs t (d + 1) ::
          (List.range (d + 1)).map (fun r => specDelta net outs t (d - r)) := by
      rw [List.range_succ_eq_map]
      simp only [List.map_cons, List.map_map, Nat.sub_zero]
      congr 1
      apply List.map_congr_left
      intro r _
      simp [Nat.succ_sub_succ]
    rw [hrhs]
    rfl

lemma sampleGradients_eq_specDelta (net : NeuralNetwork)
    (outs : List (List Scalar)) (t : List Scalar)
    (hw : net.weights.length = net.layer_sizes.length - 1)
    (hsz : 2 ≤ net.layer_sizes.length) (hlen : outs.length = net.layer_sizes.length) :
    sampleGradients net outs t = (List.range (net.weights.length - 1 + 1)).map
      (fun r => specDelta net outs t (net.weights.length - 1 - r)) :=
  gradientsFrom_eq_specDelta net outs t hw hsz hlen _

lemma updatedWeights_eq_spec (net : NeuralNetwork) (As : List (List Scalar))
    (t : List Scalar) (lr : Scalar) (hWF : WellFormed net)
    (hlen : As.length = net.layer_sizes.length) :
    updatedWeights net As (sampleGradients net As t) lr =
      specUpdatedWeights net As t lr := by
  obtain ⟨hn, hwl, hbl, hws, hbs⟩ := hWF
  unfold updatedWeights specUpdatedWeights
  rw [mapIdxFrom_eq_range_map _ _ ([] : List (List Scalar)), hwl]
  apply List.map_congr_left
  intro k hk
  have hk' : k < net.layer_sizes.length - 1 := List.mem_range.mp hk
  have hkw : k < net.weights.length := by omega
  rw [mapIdxFrom_eq_range_map _ _ ([] : List Scalar), (hws k hkw).1]
  apply List.map_congr_left
  intro i hi
  have hi' : i < net.layer_sizes.getD k 0 := List.mem_range.mp hi
  have hiw : i < (net.weights.getD k []).length := by
    rw [(hws k hkw).1]
    exact hi'
  rw [mapIdxFrom_eq_range_map _ _ (0 : Scalar), (hws k hkw).2 i hiw]
  apply List.map_congr_left
  intro j hj
  rw [if_pos ⟨hi', List.mem_range.mp hj⟩]
  rw [sampleGradients_eq_specDelta net As t hwl hn hlen,
    getD_range_map _ _ _ _ (by omega)]
  have hidx : net.weights.length - 1 - k = net.layer_sizes.length - 2 - k := by
    omega
  rw [hidx]

lemma updatedBiases_eq_spec (net : NeuralNetwork) (As : List (List Scalar))
    (t : List Scalar) (lr : Scalar) (hWF : WellFormed net)
    (hlen : As.length = net.layer_sizes.length) :
    updatedBiases net (sampleGradients net As t) lr =
      specUpdatedBiases net As t lr := by
  obtain ⟨hn, hwl, hbl, hws, hbs⟩ := hWF
  unfold updatedBiases specUpdatedBiases
  rw [mapIdxFrom_eq_range_map _ _ ([] : List Scalar), hbl]
  apply List.map_congr_left
  intro k hk
  have hk' : k < net.layer_sizes.length - 1 := List.mem_range.mp hk
  have hkb : k < net.biases.length := by omega
  rw [if_pos (by omega : k < net.weights.length)]
  rw [mapIdxFrom_eq_range_map _ _ (0 : Scalar), hbs k hkb]
  apply List.map_congr_left
  intro j hj
  rw [if_pos (List.mem_range.mp hj)]
  rw [sampleGradients_eq_specDelta net As t hwl hn hlen,
    getD_range_map _ _ _ _ (by omega)]
  have hidx : net.weights.length - 1 - k = net.layer_sizes.length - 2 - k := by
    omega
  rw [hidx]

/-- C2: for a well-formed network and a well-shaped training sample, the
per-sample update of `train` coincides with the reference backpropagation
definitions transcribed from the spec: output error signal
`δ_{out}[j] = (A_{n−1}[j] − t[j])·f′(A_{n−1}[j])`, hidden signals
`δ_k[j] = f′(A_{k+1}[j])·Σ_m δ_{k+1}[m]·W_{k+1}[j][m]`, and updates
`W_k[i][j] ← W_k[i][j] − η·δ_k[j]·A_k[i]`, `B_k[j] ← B_k[j] − η·δ_k[j]`,
with all δ captured from the current sample. -/
theorem trainSample_matches_spec_backprop (net : NeuralNetwork)
    (x t : List Scalar) (lr : Scalar) (hWF : WellFormed net)
    (_hx : x.length = net.layer_sizes.getD 0 0)
    (_ht : t.length = net.layer_sizes.getD (net.layer_sizes.length - 1) 0) :
    trainSample net x t lr = specTrainSample net x t lr := by
  have hn := hWF.1
  have hwl := hWF.2.1
  have hAs : specOutputs net x (net.layer_sizes.length - 1) = layerOutputs net x := by
    rw [specOutputs_eq]
    unfold layerOutputs
    rw [hwl]
  have hlen : (layerOutputs net x).length = net.layer_sizes.length := by
    unfold layerOutputs
    rw [outputsUpTo_length, hwl]
    omega
  unfold trainSample specTrainSample
  rw [hAs, updatedWeights_eq_spec net _ t lr hWF hlen,
    updatedBiases_eq_spec net _ t lr hWF hlen]

/-- Witness for C2 at the concrete network `tinyNet` with sample
`x = [1]`, `t = [0]`, `η = 1`. -/
theorem trainSample_matches_spec_backprop_witness :
    trainSample tinyNet [1] [0] 1 = specTrainSample tinyNet [1] [0] 1 :=
  trainSample_matches_spec_backprop tinyNet [1] [0] 1 (by decide) (by decide)
    (by decide)

/-- `std::max_element` over the suffix `xs` of the vector starting at index
`i`, with current best index `bi` and best value `bv`: the best element moves
only on a strictly greater value, so on ties the first (lowest-index) maximum
is kept. -/
def maxElemIdxAux : List Scalar → Nat → Nat → Scalar → Nat
  | [], _, bi, _ => bi
  | x :: xs, i, bi, bv =>
    if bv < x then maxElemIdxAux xs (i + 1) i x
    else maxElemIdxAux xs (i + 1) bi bv

/-- The index `std::max_element(v.begin(), v.end()) - v.begin()` computed by
`NeuralNetwork::is_correct_prediction` (neural_network.cpp:243-254); `0` for
an empty vector (`end() - begin()`). -/
def maxElemIdx : List Scalar → Nat
  | [] => 0
  | x :: xs => maxElemIdxAux xs 1 0 x

/-- `NeuralNetwork::is_correct_prediction` (neural_network.cpp:239-257):
the two argmax indices coincide. -/
def is_correct_prediction (prediction target : List Scalar) : Bool :=
  maxElemIdx prediction == maxElemIdx target

/-- The counter `correct_predictions` accumulated by the loop of
`NeuralNetwork::compute_accuracy` (neural_network.cpp:229-234). -/
def matchCount (net : NeuralNetwork) (inputs targets : List (List Scalar)) : Nat :=
  ((List.range inputs.length).filter (fun i =>
    is_correct_prediction (predictOut net (inputs.getD i []))
      (targets.getD i []))).length

/-- `NeuralNetwork::compute_accuracy` (neural_network.cpp:225-237): the
quotient `correct_predictions / inputs.size()` of IEEE doubles.  With zero
samples the C++ computes `0.0 / 0.0`, which is NaN — modelled as `none`;
otherwise both operands are small integers and the quotient is the exact
rational. -/
def compute_accuracy (net : NeuralNetwork) (inputs targets : List (List Scalar)) :
    Option Scalar :=
  if inputs.length = 0 then none
  else some ((matchCount net inputs targets : Scalar) / (inputs.length : Scalar))

lemma maxElemIdxAux_spec : ∀ (xs : List Scalar) (i bi : Nat) (bv : Scalar),
    (maxElemIdxAux xs i bi bv = bi ∧ ∀ m, m < xs.length → xs.getD m 0 ≤ bv) ∨
    (∃ j, j < xs.length ∧ maxElemIdxAux xs i bi bv = i + j ∧ bv < xs.getD j 0 ∧
      (∀ m, m < j → xs.getD m 0 < xs.getD j 0) ∧
      (∀ m, m < xs.length → xs.getD m 0 ≤ xs.getD j 0)) := by
  intro xs
  induction xs with
  | nil =>
    intro i bi bv
    left
    exact ⟨rfl, by intro m hm; simp at hm⟩
  | cons x ys ih =>
    intro i bi bv
    by_cases hx : bv < x
    · rcases ih (i + 1) i x with ⟨heq, hall⟩ | ⟨j, hjlen, heq, hgt, hbef, hle⟩
      · right
        refine ⟨0, by simp, ?_, by simpa using hx, by omega, ?_⟩
        · simp only [maxElemIdxAux, if_pos hx]
          rw [heq]
          omega
        · intro m hm
          cases m with
          | zero => simp
          | succ m' =>
            simp only [List.getD_cons_succ, List.getD_cons_zero]
            exact hall m' (by simpa using hm)
      · right
        refine ⟨j + 1, by simpa using hjlen, ?_, ?_, ?_, ?_⟩
        · simp only [maxElemIdxAux, if_pos hx]
          rw [heq]
          omega
        · simp only [List.getD_cons_succ]
          exact lt_trans hx hgt
        · intro m hm
          cases m with
          | zero =>
            simp only [List.getD_cons_succ, List.getD_cons_zero]
            exact hgt
          | succ m' =>
            simp only [List.getD_cons_succ]
            exact hbef m' (by omega)
        · intro m hm
          cases m with
          | zero =>
            simp only [List.getD_cons_succ, List.getD_cons_zero]
            exact le_of_lt hgt
          | succ m' =>
            simp only [List.getD_cons_succ]
            exact hle m' (by simpa using hm)
    · rcases ih (i + 1) bi bv with ⟨heq, hall⟩ | ⟨j, hjlen, heq, hgt, hbef, hle⟩
      · left
        refine ⟨by simp only [maxElemIdxAux, if_neg hx]; exact heq, ?_⟩
        intro m hm
        cases m with
        | zero => simpa using le_of_not_lt hx
        | succ m' =>
          simp only [List.getD_cons_succ]
          exact hall m' (by simpa using hm)
      · right
        refine ⟨j + 1, by simpa using hjlen, ?_, ?_, ?_, ?_⟩
        · simp only [maxElemIdxAux, if_neg hx]
          rw [heq]
          omega
        · simp only [List.getD_cons_succ]
          exact hgt
        · intro m hm
          cases m with
          | zero =>
            simp only [List.getD_cons_succ, List.getD_cons_zero]
            exact lt_of_le_of_lt (le_of_not_lt hx) hgt
          | succ m' =>
            simp only [List.getD_cons_succ]
            exact hbef m' (by omega)
        · intro m hm
          cases m with
          | zero =>
            simp only [List.getD_cons_succ, List.getD_cons_zero]
            exact le_trans (le_of_not_lt hx) (le_of_lt hgt)
          | succ m' =>
            simp only [List.getD_cons_succ]
            exact hle m' (by simpa using hm)

lemma maxElemIdx_first_max (v : List Scalar) :
    (∀ m, m < maxElemIdx v → v.getD m 0 < v.getD (maxElemIdx v) 0) ∧
    (∀ m, m < v.length → v.getD m 0 ≤ v.getD (maxElemIdx v) 0) := by
  cases v with
  | nil =>
    constructor
    · intro m hm
      simp [maxElemIdx] at hm
    · intro m hm
      simp at hm
  | cons x ys =>
    have hidx : maxElemIdx (x :: ys) = maxElemIdxAux ys 1 0 x := rfl
    rw [hidx]
    rcases maxElemIdxAux_spec ys 1 0 x with ⟨heq, hall⟩ | ⟨j, hjlen, heq, hgt, hbef, hle⟩
    · rw [heq]
      constructor
      · intro m hm
        omega
      · intro m hm
        cases m with
        | zero => simp
        | succ m' =>
          simp only [List.getD_cons_succ, List.getD_cons_zero]
          exact hall m' (by simpa using hm)
    · rw [heq]
      have h1j : 1 + j = j + 1 := by omega
      rw [h1j]
      constructor
      · intro m hm
        cases m with
        | zero =>
          simp only [List.getD_cons_succ, List.getD_cons_zero]
          exact hgt
        | succ m' =>
          simp only [List.getD_cons_succ]
          exact hbef m' (by omega)
      · intro m hm
        cases m with
        | zero =>
          simp only [List.getD_cons_succ, List.getD_cons_zero]
          exact le_of_lt hgt
        | succ m' =>
          simp only [List.getD_cons_succ]
          exact hle m' (by simpa using hm)

/-- C6 (amended to nonempty sample sequences — see the counterexample for the
empty one): `compute_accuracy` returns the match count over the sample count,
a value in `[0, 1]`; it returns exactly `1` when every sample's prediction
argmax matches its target argmax; and the argmax used by
`is_correct_prediction` is the first (lowest-index) maximum: every entry
before it is strictly smaller and no entry exceeds it. -/
theorem compute_accuracy_props (net : NeuralNetwork)
    (inputs targets : List (List Scalar)) (hne : inputs ≠ []) :
    compute_accuracy net inputs targets =
      some ((matchCount net inputs targets : Scalar) / (inputs.length : Scalar)) ∧
    0 ≤ ((matchCount net inputs targets : Scalar) / (inputs.length : Scalar)) ∧
    ((matchCount net inputs targets : Scalar) / (inputs.length : Scalar)) ≤ 1 ∧
    ((∀ i, i < inputs.length →
        is_correct_prediction (predictOut net (inputs.getD i []))
          (targets.getD i []) = true) →
      compute_accuracy net inputs targets = some 1) ∧
    (∀ v : List Scalar,
      (∀ m, m < maxElemIdx v → v.getD m 0 < v.getD (maxElemIdx v) 0) ∧
      (∀ m, m < v.length → v.getD m 0 ≤ v.getD (maxElemIdx v) 0)) := by
  have hlen0 : inputs.length ≠ 0 := by
    intro hc
    exact hne (List.length_eq_zero.mp hc)
  have hcount : matchCount net inputs targets ≤ inputs.length := by
    unfold matchCount
    calc ((List.range inputs.length).filter _).length ≤
        (List.range inputs.length).length := List.length_filter_le _ _
      _ = inputs.length := List.length_range _
  have hpos : (0 : Scalar) < (inputs.length : Scalar) := by
    exact_mod_cast Nat.pos_of_ne_zero hlen0
  refine ⟨?_, ?_, ?_, ?_, maxElemIdx_first_max⟩
  · unfold compute_accuracy
    rw [if_neg hlen0]
  · apply div_nonneg
    · exact_mod_cast Nat.zero_le _
    · exact le_of_lt hpos
  · rw [div_le_one hpos]
    exact_mod_cast hcount
  · intro hall
    have hfull : matchCount net inputs targets = inputs.length := by
      unfold matchCount
      rw [List.filter_eq_self.mpr, List.length_range]
      intro a ha
      exact hall a (List.mem_range.mp ha)
    unfold compute_accuracy
    rw [if_neg hlen0, hfull, div_self (ne_of_gt hpos)]

/-- Witness for C6 at `tinyNet` with one sample. -/
theorem compute_accuracy_props_witness :
    compute_accuracy tinyNet [[1]] [[0]] =
      some ((matchCount tinyNet [[1]] [[0]] : Scalar) / (([[1]] : List (List Scalar)).length : Scalar)) ∧
    0 ≤ ((matchCount tinyNet [[1]] [[0]] : Scalar) / (([[1]] : List (List Scalar)).length : Scalar)) ∧
    ((matchCount tinyNet [[1]] [[0]] : Scalar) / (([[1]] : List (List Scalar)).length : Scalar)) ≤ 1 ∧
    ((∀ i, i < ([[1]] : List (List Scalar)).length →
        is_correct_prediction (predictOut tinyNet (([[1]] : List (List Scalar)).getD i []))
          (([[0]] : List (List Scalar)).getD i []) = true) →
      compute_accuracy tinyNet [[1]] [[0]] = some 1) ∧
    (∀ v : List Scalar,
      (∀ m, m < maxElemIdx v → v.getD m 0 < v.getD (maxElemIdx v) 0) ∧
      (∀ m, m < v.length → v.getD m 0 ≤ v.getD (maxElemIdx v) 0)) :=
  compute_accuracy_props tinyNet [[1]] [[0]] (by decide)

/-- C6 counterexample: on the empty sample sequence the C++ computes
`0.0 / 0.0`, i.e. NaN (modelled as `none`) — not a value in `[0, 1]`, so the
claim's "for every sequence of input/target pairs" fails on the empty one. -/
theorem compute_accuracy_empty_nan :
    compute_accuracy tinyNet [] [] = none := rfl

/-- Truncated Taylor model of the C++ standard library's `std::exp` (a
function external to this repository): `Σ_{k≤20} x^k / k!`.  It is exact at
`x = 0` (`exp 0 = 1`, exact in IEEE arithmetic as well), the only point at
which the theorems below evaluate it. -/
def expModel (x : Scalar) : Scalar :=
  ((List.range 21).map (fun k => x ^ k / (Nat.factorial k : Scalar))).sum

namespace ActivationFunctions

/-- `ActivationFunctions::sigmoid_activation` (activation_functions.hpp):
`1.0 / (1.0 + std::exp(-x))`, with `std::exp` modelled by `expModel`. -/
def sigmoid_activation (x : Scalar) : Scalar := 1 / (1 + expModel (-x))

/-- `ActivationFunctions::sigmoid_derivative` (activation_functions.hpp):
`x * (1.0 - x)` on the post-activation value. -/
def sigmoid_derivative (x : Scalar) : Scalar := x * (1 - x)

end ActivationFunctions

/-- One datum of the binary model stream, at the granularity the codec uses
it: the individual magic characters, `size_t` machine words (8 host-endian
bytes on disk), and IEEE `double` payloads (8 bytes, written and read back
verbatim). -/
inductive Token where
  | byte : Nat → Token
  | word : Nat → Token
  | dbl : Scalar → Token
deriving DecidableEq

/-- The `ModelLoaderException` thrown by the codec for stream contents; the
loader's only content check is the magic-byte comparison. -/
inductive LoadError where
  | formatError : LoadError
deriving DecidableEq

/-- `a - b` in `size_t` arithmetic: wrap-around subtraction modulo `2^64`
(exact for `a, b < 2^64`). -/
def usub64 (a b : Nat) : Nat := (a + (2 ^ 64 - b % 2 ^ 64)) % 2 ^ 64

/-- The count `num_layers - 1` used to size the loader's weight and bias
containers and bound its loops (neural_network.cpp:320-335): `size_t`
subtraction, which wraps to `2^64 - 1` when `num_layers = 0`. -/
def loaderWeightLayers (numLayers : Nat) : Nat := usub64 numLayers 1

/-- The weight section written by `NeuralNetwork::save_model`
(neural_network.cpp:279-284): for each `layer < weights.size()` the rows
`weights[layer][i]` for `i < layer_sizes[layer]`, each row written with its
own length `weights[layer][i].size()`. -/
def weightTokens (net : NeuralNetwork) : List Token :=
  ((List.range net.weights.length).map (fun layer =>
    ((List.range (net.layer_sizes.getD layer 0)).map (fun i =>
      ((net.weights.getD layer []).getD i []).map Token.dbl)).flatten)).flatten

/-- The bias section written by `NeuralNetwork::save_model`
(neural_network.cpp:286-290): each `biases[layer]` verbatim. -/
def biasTokens (net : NeuralNetwork) : List Token :=
  (net.biases.map (fun b => b.map Token.dbl)).flatten

/-- The stream written by `NeuralNetwork::save_model`
(neural_network.cpp:268-290): magic "CS", the layer count, the layer sizes,
then the weight rows and the bias vectors. -/
def saveStream (net : NeuralNetwork) : List Token :=
  [Token.byte 67, Token.byte 83, Token.word net.layer_sizes.length] ++
  net.layer_sizes.map Token.word ++ weightTokens net ++ biasTokens net

/-- `file.read` of one magic byte into a zero-initialised `char` buffer
(neural_network.cpp:300-301): a missing datum leaves the `0` in place — the
C++ stream sets `failbit` without throwing. -/
def readByte : List Token → Nat × List Token
  | Token.byte b :: rest => (b, rest)
  | s => (0, s)

/-- `file.read` of one `size_t` (neural_network.cpp:306): on a short stream
the read fails without throwing and the destination keeps its previous
contents, modelled as `0`; no theorem below depends on that value. -/
def readWord : List Token → Nat × List Token
  | Token.word w :: rest => (w, rest)
  | s => (0, s)

/-- `file.read` of `n` consecutive `size_t` values (the shape vector,
neural_network.cpp:309-312): the values actually read; a short read stops. -/
def readWords : Nat → List Token → List Nat × List Token
  | 0, s => ([], s)
  | n + 1, Token.word w :: rest =>
    let p := readWords n rest
    (w :: p.1, p.2)
  | _ + 1, s => ([], s)

/-- `file.read` of `n` consecutive `double` values: the values actually read;
a short read stops without throwing. -/
def readDbls : Nat → List Token → List Scalar × List Token
  | 0, s => ([], s)
  | n + 1, Token.dbl v :: rest =>
    let p := readDbls n rest
    (v :: p.1, p.2)
  | _ + 1, s => ([], s)

/-- `std::vector::resize`: keep a prefix, value-initialise any new slots. -/
def resizeList (l : List α) (n : Nat) (pad : α) : List α :=
  l.take n ++ List.replicate (n - l.length) pad

/-- A `file.read` into an existing buffer `old`: the values actually read
overwrite the front, a short read leaves the tail as it was. -/
def overwrite (vals old : List Scalar) : List Scalar :=
  vals ++ old.drop vals.length

/-- One tensor-row read of the loader (neural_network.cpp:327-331, 336-340):
resize the buffer to `sz`, then read `sz` doubles into it. -/
def readRow (old : List Scalar) (sz : Nat) (st : List Token) :
    List Scalar × List Token :=
  let p := readDbls sz st
  (overwrite p.1 (resizeList old sz 0), p.2)

/-- The row loop of one weight layer (`i = 0 … layer_sizes[layer]-1`,
neural_network.cpp:326-332). -/
def readRowsAux (szNext : Nat) (oldRows : List (List Scalar)) :
    Nat → Nat → List Token → List (List Scalar) × List Token
  | _, 0, st => ([], st)
  | i, c + 1, st =>
    let p := readRow (oldRows.getD i []) szNext st
    let q := readRowsAux szNext oldRows (i + 1) c p.2
    (p.1 :: q.1, q.2)

/-- The weight-reading loop (neural_network.cpp:323-333). -/
def readAllWeights (sizes : List Nat) (oldW : List (List (List Scalar))) :
    Nat → Nat → List Token → List (List (List Scalar)) × List Token
  | _, 0, st => ([], st)
  | layer, c + 1, st =>
    let rows := resizeList (oldW.getD layer []) (sizes.getD layer 0) []
    let p := readRowsAux (sizes.getD (layer + 1) 0) rows 0 (sizes.getD layer 0) st
    let q := readAllWeights sizes oldW (layer + 1) c p.2
    (p.1 :: q.1, q.2)

/-- The bias-reading loop (neural_network.cpp:335-341). -/
def readAllBiases (sizes : List Nat) (oldB : List (List Scalar)) :
    Nat → Nat → List Token → List (List Scalar) × List Token
  | _, 0, st => ([], st)
  | layer, c + 1, st =>
    let p := readRow (oldB.getD layer []) (sizes.getD (layer + 1) 0) st
    let q := readAllBiases sizes oldB (layer + 1) c p.2
    (p.1 :: q.1, q.2)

/-- The randomly initialising constructor (neural_network.cpp:40-81): for
each gap `k`, `sizes[k]` weight rows of length `sizes[k+1]` and one bias
vector of length `sizes[k+1]`, filled with normal-distribution draws.  The
draws are modelled positionally by `rndw`/`rndb`, since no theorem below
depends on their values or order. -/
def initNetwork (rndw : Nat → Nat → Nat → Scalar) (rndb : Nat → Nat → Scalar)
    (sizes : List Nat) (act der : Scalar → Scalar) : NeuralNetwork :=
  { layer_sizes := sizes
    weights := (List.range (sizes.length - 1)).map (fun k =>
      (List.range (sizes.getD k 0)).map (fun i =>
        (List.range (sizes.getD (k + 1) 0)).map (fun j => rndw k i j)))
    biases := (List.range (sizes.length - 1)).map (fun k =>
      (List.range (sizes.getD (k + 1) 0)).map (fun j => rndb k j))
    activation := act
    activation_derivative := der }

/-- The body of `NeuralNetwork::loadFromModel` after the magic check
(neural_network.cpp:305-344): read `num_layers` and the zero-initialised
shape vector, construct a network with the SIGMOID pair hardcoded at line
314-318 (no caller-supplied activation) and random parameters, resize the
containers to `num_layers - 1` (`size_t` arithmetic) and overwrite them with
the stream's tensors.  It contains no throw. -/
def loadBody (rndw : Nat → Nat → Nat → Scalar) (rndb : Nat → Nat → Scalar)
    (st0 : List Token) : NeuralNetwork :=
  let p1 := readWord st0
  let p2 := readWords p1.1 p1.2
  let sizes := p2.1 ++ List.replicate (p1.1 - p2.1.length) 0
  let init := initNetwork rndw rndb sizes
    ActivationFunctions.sigmoid_activation ActivationFunctions.sigmoid_derivative
  let wcnt := loaderWeightLayers p1.1
  let pw := readAllWeights sizes (resizeList init.weights wcnt []) 0 wcnt p2.2
  let pb := readAllBiases sizes (resizeList init.biases wcnt []) 0 wcnt pw.2
  { init with weights := pw.1, biases := pb.1 }

/-- `NeuralNetwork::loadFromModel` (neural_network.cpp:295-345) on the
contents of an opened stream: read the two magic bytes into a
zero-initialised buffer, throw the model-format `ModelLoaderException` unless
they are 'C','S' (67, 83), then run the throw-free body. -/
def loadFromModel (rndw : Nat → Nat → Nat → Scalar) (rndb : Nat → Nat → Scalar)
    (st : List Token) : Except LoadError NeuralNetwork :=
  let p1 := readByte st
  let p2 := readByte p1.2
  if p1.1 = 67 ∧ p2.1 = 83 then Except.ok (loadBody rndw rndb p2.2)
  else Except.error LoadError.formatError

/-- C4 (amended): the loader raises the model-format error exactly when the
first two bytes of the stream are not 'C','S'.  No other condition raises: a
short read or a declared shape inconsistent with the stream length is
silently accepted (the failed reads leave the buffer contents in place) and a
network is still returned — see the counterexample. -/
theorem load_raises_iff_magic_mismatch (rndw : Nat → Nat → Nat → Scalar)
    (rndb : Nat → Nat → Scalar) (st : List Token) :
    loadFromModel rndw rndb st = Except.error LoadError.formatError ↔
      ¬((readByte st).1 = 67 ∧ (readByte (readByte st).2).1 = 83) := by
  unfold loadFromModel
  by_cases h : (readByte st).1 = 67 ∧ (readByte (readByte st).2).1 = 83
  · simp [h]
  · simp [h]

/-- C4 counterexample: a stream with valid magic that declares the shape
`{1, 1}` but then ends (too short for the declared shape — no weight or bias
data at all) raises nothing: the loader returns a network, with the
short-read tensors keeping their in-place contents, contradicting the claim
that a short read or an inconsistent declared shape raises model-format. -/
theorem load_short_stream_no_error :
    (loadFromModel (fun _ _ _ => 0) (fun _ _ => 0)
      [Token.byte 67, Token.byte 83, Token.word 2, Token.word 1, Token.word 1]).isOk
      = true := by
  rfl

/-- C9: a stream with valid magic whose declared layer count is `0` raises no
error — the loader performs no validation of the deserialized count — and the
unsigned expression `num_layers - 1` used to size the weight and bias
containers wraps to `2^64 - 1` (the maximum machine integer) instead. -/
theorem load_zero_layer_count_wraps :
    (loadFromModel (fun _ _ _ => 0) (fun _ _ => 0)
      [Token.byte 67, Token.byte 83, Token.word 0]).isOk = true ∧
    loaderWeightLayers 0 = 2 ^ 64 - 1 := by
  constructor
  · rfl
  · norm_num [loaderWeightLayers, usub64]

/-- `std::out_of_range`, thrown by `std::string::substr` when the start
position exceeds the string size. -/
inductive StrError where
  | outOfRange : StrError
deriving DecidableEq

/-- The suffix `".chisei"` as characters. -/
def dotChisei : List Char := ['.', 'c', 'h', 'i', 's', 'e', 'i']

/-- `std::string::substr(pos)` (used at neural_network.cpp:261): the suffix
from `pos`, or `std::out_of_range` when `pos > size()`. -/
def substrFrom (s : List Char) (pos : Nat) : Except StrError (List Char) :=
  if pos ≤ s.length then Except.ok (s.drop pos)
  else Except.error StrError.outOfRange

/-- The filename handling of `NeuralNetwork::save_model`
(neural_network.cpp:260-262): compare `filename.substr(filename.size() - 7)`
— a `size_t` subtraction — against ".chisei" and append the suffix when it
differs; the result is the filename actually opened for writing, or the
exception `substr` throws. -/
def saveFilename (name : List Char) : Except StrError (List Char) :=
  match substrFrom name (usub64 name.length 7) with
  | Except.error e => Except.error e
  | Except.ok tail7 =>
    Except.ok (if tail7 ≠ dotChisei then name ++ dotChisei else name)

/-- C5 (code bug): for the one-character filename "a" — whose length is below
7, so the unsigned `filename.size() - 7` wraps to `2^64 - 6` — `save_model`
does not write to "a.chisei" as the claim requires: `substr` throws
`std::out_of_range` before any file is opened. -/
theorem saveFilename_short_name_throws :
    saveFilename ['a'] = Except.error StrError.outOfRange ∧
    saveFilename ['a'] ≠ Except.ok (['a'] ++ dotChisei) := by
  have h : saveFilename ['a'] = Except.error StrError.outOfRange := by
    unfold saveFilename substrFrom usub64
    norm_num
  exact ⟨h, by rw [h]; simp⟩

lemma readWords_exact (ws : List Nat) (rest : List Token) :
    readWords ws.length (ws.map Token.word ++ rest) = (ws, rest) := by
  induction ws with
  | nil => rfl
  | cons w ws ih => simp [readWords, ih]

lemma readDbls_exact (vs : List Scalar) (rest : List Token) :
    readDbls vs.length (vs.map Token.dbl ++ rest) = (vs, rest) := by
  induction vs with
  | nil => rfl
  | cons v vs ih => simp [readDbls, ih]

lemma resizeList_length (l : List α) (n : Nat) (pad : α) :
    (resizeList l n pad).length = n := by
  simp [resizeList]
  omega

lemma resizeList_self (l : List α) (pad : α) :
    resizeList l l.length pad = l := by
  simp [resizeList]

lemma overwrite_full (vals old : List Scalar) (h : old.length = vals.length) :
    overwrite vals old = vals := by
  unfold overwrite
  rw [List.drop_of_length_le (by omega), List.append_nil]

lemma readRow_exact (old row : List Scalar) (rest : List Token) :
    readRow old row.length (row.map Token.dbl ++ rest) = (row, rest) := by
  unfold readRow
  rw [readDbls_exact]
  show (overwrite row (resizeList old row.length 0), rest) = (row, rest)
  rw [overwrite_full row _ (resizeList_length old row.length 0)]

lemma range_map_getD_self (l : List α) (d : α) :
    (List.range l.length).map (fun k => l.getD k d) = l := by
  have h1 : ∀ (l' : List α) (i : Nat), mapIdxFrom (fun _ a => a) l' i = l' := by
    intro l'
    induction l' with
    | nil => intro i; rfl
    | cons a u ih =>
      intro i
      simp [mapIdxFrom, ih]
  rw [← mapIdxFrom_eq_range_map (fun _ a => a) l d, h1]

lemma map_eq_range_map (f : α → β) (l : List α) (d : α) :
    l.map f = (List.range l.length).map (fun k => f (l.getD k d)) := by
  conv_lhs => rw [← range_map_getD_self l d]
  rw [List.map_map]
  rfl

lemma readRowsAux_succ (szNext : Nat) (oldRows : List (List Scalar))
    (i c : Nat) (st : List Token) :
    readRowsAux szNext oldRows i (c + 1) st =
      ((readRow (oldRows.getD i []) szNext st).1 ::
        (readRowsAux szNext oldRows (i + 1) c
          (readRow (oldRows.getD i []) szNext st).2).1,
       (readRowsAux szNext oldRows (i + 1) c
          (readRow (oldRows.getD i []) szNext st).2).2) := rfl

lemma readRowsAux_exact (szNext : Nat) (oldRows : List (List Scalar))
    (r : Nat → List Scalar) :
    ∀ (c i : Nat) (rest : List Token),
      (∀ m, m < c → (r (i + m)).length = szNext) →
      readRowsAux szNext oldRows i c
        (((List.range' i c).map (fun k => (r k).map Token.dbl)).flatten ++ rest) =
        ((List.range' i c).map r, rest) := by
  intro c
  induction c with
  | zero =>
    intro i rest _
    rfl
  | succ m ih =>
    intro i rest hlen
    have h0 : (r i).length = szNext := by
      have := hlen 0 (by omega)
      simpa using this
    have hre : ∀ S, readRow (oldRows.getD i []) szNext ((r i).map Token.dbl ++ S) =
        (r i, S) := by
      intro S
      rw [← h0]
      exact readRow_exact _ _ _
    rw [List.range'_succ]
    simp only [List.map_cons, List.flatten_cons, List.append_assoc]
    rw [readRowsAux_succ, hre]
    have hshift : ∀ m', m' < m → (r (i + 1 + m')).length = szNext := by
      intro m' hm'
      have := hlen (m' + 1) (by omega)
      have harith : i + (m' + 1) = i + 1 + m' := by omega
      rw [harith] at this
      exact this
    rw [ih (i + 1) rest hshift]

lemma readAllWeights_succ (sizes : List Nat) (oldW : List (List (List Scalar)))
    (layer c : Nat) (st : List Token) :
    readAllWeights sizes oldW layer (c + 1) st =
      ((readRowsAux (sizes.getD (layer + 1) 0)
          (resizeList (oldW.getD layer []) (sizes.getD layer 0) []) 0
          (sizes.getD layer 0) st).1 ::
        (readAllWeights sizes oldW (layer + 1) c
          (readRowsAux (sizes.getD (layer + 1) 0)
            (resizeList (oldW.getD layer []) (sizes.getD layer 0) []) 0
            (sizes.getD layer 0) st).2).1,
       (readAllWeights sizes oldW (layer + 1) c
          (readRowsAux (sizes.getD (layer + 1) 0)
            (resizeList (oldW.getD layer []) (sizes.getD layer 0) []) 0
            (sizes.getD layer 0) st).2).2) := rfl

lemma readAllWeights_exact (sizes : List Nat)
    (oldW : List (List (List Scalar))) (W : List (List (List Scalar))) :
    ∀ (c layer : Nat) (rest : List Token),
      (∀ l, layer ≤ l → l < layer + c →
        (W.getD l []).length = sizes.getD l 0 ∧
        ∀ i, i < sizes.getD l 0 →
          ((W.getD l []).getD i []).length = sizes.getD (l + 1) 0) →
      readAllWeights sizes oldW layer c
        (((List.range' layer c).map (fun l =>
          ((List.range (sizes.getD l 0)).map (fun i =>
            ((W.getD l []).getD i []).map Token.dbl)).flatten)).flatten ++ rest) =
        ((List.range' layer c).map (fun l => W.getD l []), rest) := by
  intro c
  induction c with
  | zero =>
    intro layer rest _
    rfl
  | succ m ih =>
    intro layer rest hshape
    have hlay := hshape layer (le_refl _) (by omega)
    rw [List.range'_succ]
    simp only [List.map_cons, List.flatten_cons, List.append_assoc]
    rw [readAllWeights_succ]
    have hrows : readRowsAux (sizes.getD (layer + 1) 0)
        (resizeList (oldW.getD layer []) (sizes.getD layer 0) []) 0
        (sizes.getD layer 0)
        (((List.range (sizes.getD layer 0)).map (fun i =>
          ((W.getD layer []).getD i []).map Token.dbl)).flatten ++
          (((List.range' (layer + 1) m).map (fun l =>
            ((List.range (sizes.getD l 0)).map (fun i =>
              ((W.getD l []).getD i []).map Token.dbl)).flatten)).flatten ++ rest)) =
        (W.getD layer [],
         ((List.range' (layer + 1) m).map (fun l =>
            ((List.range (sizes.getD l 0)).map (fun i =>
              ((W.getD l []).getD i []).map Token.dbl)).flatten)).flatten ++ rest) := by
      rw [List.range_eq_range']
      rw [readRowsAux_exact (sizes.getD (layer + 1) 0) _ (fun i => (W.getD layer []).getD i [])
        (sizes.getD layer 0) 0 _ ?hlens]
      case hlens =>
        intro i hi
        have harith : 0 + i = i := by omega
        rw [harith]
        exact hlay.2 i hi
      rw [← List.range_eq_range', ← hlay.1, range_map_getD_self]
    rw [hrows]
    rw [ih (layer + 1) rest (fun l hl1 hl2 => hshape l (by omega) (by omega))]

lemma readAllBiases_succ (sizes : List Nat) (oldB : List (List Scalar))
    (layer c : Nat) (st : List Token) :
    readAllBiases sizes oldB layer (c + 1) st =
      ((readRow (oldB.getD layer []) (sizes.getD (layer + 1) 0) st).1 ::
        (readAllBiases sizes oldB (layer + 1) c
          (readRow (oldB.getD layer []) (sizes.getD (layer + 1) 0) st).2).1,
       (readAllBiases sizes oldB (layer + 1) c
          (readRow (oldB.getD layer []) (sizes.getD (layer + 1) 0) st).2).2) := rfl

lemma readAllBiases_exact (sizes : List Nat) (oldB : List (List Scalar))
    (B : List (List Scalar)) :
    ∀ (c layer : Nat) (rest : List Token),
      (∀ l, layer ≤ l → l < layer + c →
        (B.getD l []).length = sizes.getD (l + 1) 0) →
      readAllBiases sizes oldB layer c
        (((List.range' layer c).map (fun l => (B.getD l []).map Token.dbl)).flatten
          ++ rest) =
        ((List.range' layer c).map (fun l => B.getD l []), rest) := by
  intro c
  induction c with
  | zero =>
    intro layer rest _
    rfl
  | succ m ih =>
    intro layer rest hshape
    have hlay := hshape layer (le_refl _) (by omega)
    rw [List.range'_succ]
    simp only [List.map_cons, List.flatten_cons, List.append_assoc]
    rw [readAllBiases_succ]
    have hrow : readRow (oldB.getD layer []) (sizes.getD (layer + 1) 0)
        ((B.getD layer []).map Token.dbl ++
          (((List.range' (layer + 1) m).map
            (fun l => (B.getD l []).map Token.dbl)).flatten ++ rest)) =
        (B.getD layer [],
         ((List.range' (layer + 1) m).map
            (fun l => (B.getD l []).map Token.dbl)).flatten ++ rest) := by
      rw [← hlay]
      exact readRow_exact _ _ _
    rw [hrow]
    rw [ih (layer + 1) rest (fun l hl1 hl2 => hshape l (by omega) (by omega))]

lemma loaderWeightLayers_eq (n : Nat) (h1 : 1 ≤ n) (hlt : n < 2 ^ 64) :
    loaderWeightLayers n = n - 1 := by
  unfold loaderWeightLayers usub64
  have h2 : 1 % 2 ^ 64 = 1 := Nat.mod_eq_of_lt (by norm_num)
  rw [h2]
  have h3 : n + (2 ^ 64 - 1) = 2 ^ 64 + (n - 1) := by omega
  rw [h3, Nat.add_mod_left, Nat.mod_eq_of_lt (by omega)]

lemma initNetwork_weights_length (rndw : Nat → Nat → Nat → Scalar)
    (rndb : Nat → Nat → Scalar) (sizes : List Nat) (act der : Scalar → Scalar) :
    (initNetwork rndw rndb sizes act der).weights.length = sizes.length - 1 := by
  simp [initNetwork]

lemma initNetwork_biases_length (rndw : Nat → Nat → Nat → Scalar)
    (rndb : Nat → Nat → Scalar) (sizes : List Nat) (act der : Scalar → Scalar) :
    (initNetwork rndw rndb sizes act der).biases.length = sizes.length - 1 := by
  simp [initNetwork]

lemma resizeList_of_length (l : List α) (n : Nat) (pad : α) (h : l.length = n) :
    resizeList l n pad = l := by
  subst h
  exact resizeList_self l pad

/-- C3 (amended): loading the stream written by `save_model` reproduces the
layer sizes, weights and biases exactly, but the loader installs the
hardcoded sigmoid pair (neural_network.cpp:314-318) rather than a
caller-supplied activation — `loadFromModel` takes no activation argument, so
the activation pair is neither persisted nor supplied by the caller.
Predictions therefore agree bitwise exactly when the saved network's own
activation was the sigmoid pair (the counterexample shows a non-sigmoid
network whose prediction changes after the round trip). -/
theorem save_load_roundtrip (rndw : Nat → Nat → Nat → Scalar)
    (rndb : Nat → Nat → Scalar) (net : NeuralNetwork) (hWF : WellFormed net)
    (hlt : net.layer_sizes.length < 2 ^ 64) :
    loadFromModel rndw rndb (saveStream net) =
      Except.ok ⟨net.layer_sizes, net.weights, net.biases,
        ActivationFunctions.sigmoid_activation,
        ActivationFunctions.sigmoid_derivative⟩ ∧
    (net.activation = ActivationFunctions.sigmoid_activation →
      ∀ x, predictOut ⟨net.layer_sizes, net.weights, net.biases,
        ActivationFunctions.sigmoid_activation,
        ActivationFunctions.sigmoid_derivative⟩ x = predictOut net x) := by
  obtain ⟨hn, hwl, hbl, hws, hbs⟩ := hWF
  constructor
  · have h1 : loadFromModel rndw rndb (saveStream net) =
        Except.ok (loadBody rndw rndb
          (Token.word net.layer_sizes.length ::
            (net.layer_sizes.map Token.word ++ weightTokens net ++
              biasTokens net))) := rfl
    rw [h1]
    congr 1
    simp only [loadBody, readWord]
    rw [List.append_assoc, readWords_exact net.layer_sizes
      (weightTokens net ++ biasTokens net)]
    simp only [Nat.sub_self, List.replicate_zero, List.append_nil]
    rw [loaderWeightLayers_eq _ (by omega) hlt]
    rw [resizeList_of_length _ _ _ (initNetwork_weights_length rndw rndb
      net.layer_sizes ActivationFunctions.sigmoid_activation
      ActivationFunctions.sigmoid_derivative)]
    rw [resizeList_of_length _ _ _ (initNetwork_biases_length rndw rndb
      net.layer_sizes ActivationFunctions.sigmoid_activation
      ActivationFunctions.sigmoid_derivative)]
    have hw1 : weightTokens net = ((List.range' 0 (net.layer_sizes.length - 1)).map
        (fun l => ((List.range (net.layer_sizes.getD l 0)).map (fun i =>
          ((net.weights.getD l []).getD i []).map Token.dbl)).flatten)).flatten := by
      unfold weightTokens
      rw [hwl, List.range_eq_range']
    rw [hw1]
    rw [readAllWeights_exact net.layer_sizes _ net.weights
      (net.layer_sizes.length - 1) 0 (biasTokens net) ?hwshape]
    case hwshape =>
      intro l _ hl2
      have hlw : l < net.weights.length := by omega
      refine ⟨(hws l hlw).1, ?_⟩
      intro i hi
      exact (hws l hlw).2 i (by rw [(hws l hlw).1]; exact hi)
    have hWlist : (List.range' 0 (net.layer_sizes.length - 1)).map
        (fun l => net.weights.getD l []) = net.weights := by
      rw [← List.range_eq_range', ← hwl, range_map_getD_self]
    rw [hWlist]
    have hb1 : biasTokens net = ((List.range' 0 (net.layer_sizes.length - 1)).map
        (fun l => (net.biases.getD l []).map Token.dbl)).flatten := by
      unfold biasTokens
      rw [map_eq_range_map (fun b => b.map Token.dbl) net.biases [], hbl,
        List.range_eq_range']
    rw [hb1]
    rw [show (((List.range' 0 (net.layer_sizes.length - 1)).map
        (fun l => (net.biases.getD l []).map Token.dbl)).flatten : List Token) =
      ((List.range' 0 (net.layer_sizes.length - 1)).map
        (fun l => (net.biases.getD l []).map Token.dbl)).flatten ++ [] from
      (List.append_nil _).symm]
    rw [readAllBiases_exact net.layer_sizes _ net.biases
      (net.layer_sizes.length - 1) 0 [] ?hbshape]
    case hbshape =>
      intro l _ hl2
      exact hbs l (by omega)
    have hBlist : (List.range' 0 (net.layer_sizes.length - 1)).map
        (fun l => net.biases.getD l []) = net.biases := by
      rw [← List.range_eq_range', ← hbl, range_map_getD_self]
    rw [hBlist]
    rfl
  · intro hact x
    cases net with
    | mk ls w b act der =>
      simp only at hact
      rw [show act = ActivationFunctions.sigmoid_activation from hact]
      rfl

/-- Witness for the amended C3 at a concrete sigmoid network. -/
theorem save_load_roundtrip_witness :
    loadFromModel (fun _ _ _ => 0) (fun _ _ => 0) (saveStream
      ⟨[1, 1], [[[1]]], [[0]], ActivationFunctions.sigmoid_activation,
        ActivationFunctions.sigmoid_derivative⟩) =
      Except.ok ⟨[1, 1], [[[1]]], [[0]],
        ActivationFunctions.sigmoid_activation,
        ActivationFunctions.sigmoid_derivative⟩ ∧
    ((⟨[1, 1], [[[1]]], [[0]], ActivationFunctions.sigmoid_activation,
        ActivationFunctions.sigmoid_derivative⟩ : NeuralNetwork).activation =
        ActivationFunctions.sigmoid_activation →
      ∀ x, predictOut ⟨[1, 1], [[[1]]], [[0]],
        ActivationFunctions.sigmoid_activation,
        ActivationFunctions.sigmoid_derivative⟩ x =
        predictOut ⟨[1, 1], [[[1]]], [[0]],
          ActivationFunctions.sigmoid_activation,
          ActivationFunctions.sigmoid_derivative⟩ x) :=
  save_load_roundtrip (fun _ _ _ => 0) (fun _ _ => 0) _ (by decide) (by norm_num)

/-- Unwrap a successful load (used only to state the C3 counterexample). -/
def loadedOr (e : Except LoadError NeuralNetwork) (d : NeuralNetwork) :
    NeuralNetwork :=
  match e with
  | Except.ok n => n
  | Except.error _ => d

/-- C3 counterexample: `tinyNet` uses the identity activation, not the
sigmoid pair.  Saving it and loading the file back produces a network whose
activation is the loader's hardcoded sigmoid, and its prediction on the input
`[0]` is `[1/2]` (sigmoid of 0, exact also in IEEE doubles) instead of
`tinyNet`'s `[0]` — the claim's bitwise predict equality fails, because the
activation pair is neither persisted nor supplied by the caller on load. -/
theorem save_load_changes_prediction :
    predictOut (loadedOr (loadFromModel (fun _ _ _ => 0) (fun _ _ => 0)
      (saveStream tinyNet)) tinyNet) [0] ≠ predictOut tinyNet [0] := by
  have hL : loadFromModel (fun _ _ _ => 0) (fun _ _ => 0) (saveStream tinyNet) =
      Except.ok ⟨[1, 1], [[[1]]], [[0]],
        ActivationFunctions.sigmoid_activation,
        ActivationFunctions.sigmoid_derivative⟩ := rfl
  rw [hL]
  show predictOut ⟨[1, 1], [[[1]]], [[0]],
      ActivationFunctions.sigmoid_activation,
      ActivationFunctions.sigmoid_derivative⟩ [0] ≠ predictOut tinyNet [0]
  have hs : ActivationFunctions.sigmoid_activation 0 = 1 / 2 := by
    norm_num [ActivationFunctions.sigmoid_activation, expModel,
      List.range_succ, Nat.factorial]
  have h1 : predictOut ⟨[1, 1], [[[1]]], [[0]],
      ActivationFunctions.sigmoid_activation,
      ActivationFunctions.sigmoid_derivative⟩ [0] =
      [ActivationFunctions.sigmoid_activation 0] := by
    norm_num [predictOut, forwardLayer, List.range_succ]
  have h2 : predictOut tinyNet [0] = [0] := by
    norm_num [predictOut, forwardLayer, tinyNet, List.range_succ]
  rw [h1, h2, hs]
  norm_num

end Chisei
